import Mathlib

/-!
Shallow embedding of the git object-store core from this repository
(package `git`: Init, CatFile, WriteBlob, hashBlob, ReadTree, WriteTree,
treeTable, plus the SHA-1 digest they rely on).

Modelling conventions:
* Go strings and byte slices are byte lists (`List Nat`, each element < 256).
* The zlib codec is modelled as the identity on byte lists; the only
  property the code relies on is that decompression inverts compression.
* The object store and filesystem are explicit association lists; store
  reads/writes are explicit state passing.
* `bufio` reads are modelled with the whole decompressed object buffered
  (the objects here are far below the 4096-byte buffer), so a fixed-size
  read returns `min(requested, remaining)` bytes and fails only when zero
  bytes remain, and `ReadString(delim)` fails exactly when the delimiter
  does not occur before the end of the stream.
* The tree-entry parse loop and the 64-byte chunking are written with an
  explicit structural fuel argument so that every definition reduces inside
  the kernel; the fuel is instantiated with a provably sufficient bound at
  the public wrapper, and a fuel-invariance lemma recovers the loop's step
  equation for arbitrary inputs.
-/

set_option maxRecDepth 1000000

/-- ASCII bytes of a string literal (all strings in this development are ASCII). -/
def str (s : String) : List Nat := s.toList.map Char.toNat

/-- Big-endian rendering of `v` on `n` bytes. -/
def beBytes : Nat → Nat → List Nat
  | 0, _ => []
  | n + 1, v => beBytes n (v / 256) ++ [v % 256]

/-- 32-bit left rotation (inputs are kept below 2^32). -/
def rotl32 (n x : Nat) : Nat := ((x <<< n) % 4294967296) ||| (x >>> (32 - n))

/-- Big-endian 32-bit words of a byte list (as in SHA-1 block decoding). -/
def toWords : List Nat → List Nat
  | b0 :: b1 :: b2 :: b3 :: rest => (((b0 * 256 + b1) * 256 + b2) * 256 + b3) :: toWords rest
  | _ => []

/-- SHA-1 round function. -/
def sha1F (t b c d : Nat) : Nat :=
  if t < 20 then (b &&& c) ||| ((4294967295 - b) &&& d)
  else if t < 40 then b ^^^ c ^^^ d
  else if t < 60 then (b &&& c) ||| (b &&& d) ||| (c &&& d)
  else b ^^^ c ^^^ d

/-- SHA-1 round constants. -/
def sha1K (t : Nat) : Nat :=
  if t < 20 then 1518500249
  else if t < 40 then 1859775393
  else if t < 60 then 2400959708
  else 3395469782

/-- Extend the 16-word message schedule by `n` further words. -/
def sched : List Nat → Nat → List Nat
  | w, 0 => w
  | w, n + 1 =>
    let l := w.length
    sched (w ++ [rotl32 1 ((w.getD (l - 3) 0) ^^^ (w.getD (l - 8) 0) ^^^
      (w.getD (l - 14) 0) ^^^ (w.getD (l - 16) 0))]) n

/-- One SHA-1 round on the five-word state. -/
def sha1Step (w : List Nat) (st : Nat × Nat × Nat × Nat × Nat) (t : Nat) :
    Nat × Nat × Nat × Nat × Nat :=
  let a := st.1
  let b := st.2.1
  let c := st.2.2.1
  let d := st.2.2.2.1
  let e := st.2.2.2.2
  let tmp := (rotl32 5 a + sha1F t b c d + e + sha1K t + w.getD t 0) % 4294967296
  (tmp, a, rotl32 30 b, c, d)

/-- Compress one 64-byte block into the running hash state. -/
def processBlock (h : Nat × Nat × Nat × Nat × Nat) (blk : List Nat) :
    Nat × Nat × Nat × Nat × Nat :=
  let w := sched (toWords blk) 64
  let r := (List.range 80).foldl (sha1Step w) h
  ((h.1 + r.1) % 4294967296, (h.2.1 + r.2.1) % 4294967296,
   (h.2.2.1 + r.2.2.1) % 4294967296, (h.2.2.2.1 + r.2.2.2.1) % 4294967296,
   (h.2.2.2.2 + r.2.2.2.2) % 4294967296)

/-- Split into 64-byte chunks; the fuel (first argument) is a bound on the
number of chunks and is instantiated with the list length. -/
def chunk64F : Nat → List Nat → List (List Nat)
  | 0, _ => []
  | _ + 1, [] => []
  | f + 1, l => l.take 64 :: chunk64F f (l.drop 64)

/-- SHA-1 digest (20 bytes) of a byte list, as in `crypto/sha1.Sum`. -/
def sha1bytes (msg : List Nat) : List Nat :=
  let padded := msg ++ [128] ++ List.replicate ((119 - msg.length % 64) % 64) 0 ++
    beBytes 8 (msg.length * 8)
  let h := (chunk64F padded.length padded).foldl processBlock
    (1732584193, 4023233417, 2562383102, 271733878, 3285377520)
  beBytes 4 h.1 ++ beBytes 4 h.2.1 ++ beBytes 4 h.2.2.1 ++
    beBytes 4 h.2.2.2.1 ++ beBytes 4 h.2.2.2.2

/-- Lowercase hex digit byte of a value below 16. -/
def hexChar (n : Nat) : Nat := if n < 10 then 48 + n else 87 + n

/-- Lowercase hex rendering of a byte list, as produced by Go's `%x` verb. -/
def hexOfBytes (bs : List Nat) : List Nat :=
  bs.foldr (fun b acc => hexChar (b / 16) :: hexChar (b % 16) :: acc) []

/-- Decimal ASCII rendering of a natural number, as produced by `%d`. -/
def decBytes (n : Nat) : List Nat := str (toString n)

/-- Error kinds surfaced by the `git` package, by the `fmt.Errorf` site that
produces them.  `splitPanic` stands for the runtime panic `CatFile` hits when
the decompressed object contains no null byte (`Split(...)[1]` out of range). -/
inductive GitError where
  | invalidHash (got : Nat)
  | objectMissing
  | openFailed
  | readType
  | typeMismatch (typ : List Nat)
  | readHeader
  | readMode
  | readName
  | readHash
  | splitPanic
  | alreadyInitialized
  deriving DecidableEq, Repr

/-- The object store: an association list from file path to stored bytes,
newest entry first (a write is a prepend, a read takes the first match). -/
abbrev Store := List (List Nat × List Nat)

/-- Write a file into the store (`os.Create` + write). -/
def storePut (s : Store) (k v : List Nat) : Store := (k, v) :: s

/-- Read a file from the store (`os.Open` + read), `none` when absent. -/
def storeGet : Store → List Nat → Option (List Nat)
  | [], _ => none
  | (k', v) :: rest, k => if k' = k then some v else storeGet rest k

/-- zlib compression, modelled as the identity on byte lists. -/
def zlibEncode (bs : List Nat) : List Nat := bs

/-- zlib decompression, modelled as the identity on byte lists. -/
def zlibDecode (bs : List Nat) : List Nat := bs

/-- Path of the object file for a hash: `<root>/.git/objects/<hash[:2]>/<hash[2:]>`. -/
def objectPath (root hash : List Nat) : List Nat :=
  root ++ str "/.git/objects/" ++ hash.take 2 ++ str "/" ++ hash.drop 2

/-- The `Repository` handle: a root path and the per-handle init flag. -/
structure Repository where
  root : List Nat
  initialized : Bool
  deriving DecidableEq, Repr

/-- `NewRepository`: a fresh handle with the flag cleared. -/
def NewRepository (root : List Nat) : Repository := { root := root, initialized := false }

/-- The filesystem state touched by `Init`: created directories and written files. -/
structure FsState where
  dirs : List (List Nat)
  files : List (List Nat × List Nat)
  deriving DecidableEq, Repr

/-- `Repository.Init`: fails fast with `alreadyInitialized` when the handle's
flag is set (before any filesystem operation); otherwise creates the `.git`
skeleton, writes `HEAD`, and sets the flag. -/
def Repository.Init (r : Repository) (fs : FsState) : Repository × FsState × Option GitError :=
  if r.initialized then (r, fs, some .alreadyInitialized)
  else
    let fs1 : FsState :=
      { dirs := fs.dirs ++ [r.root ++ str "/.git", r.root ++ str "/.git/objects",
          r.root ++ str "/.git/refs"],
        files := fs.files ++ [(r.root ++ str "/.git/HEAD", str "ref: refs/heads/master\n")] }
    ({ r with initialized := true }, fs1, none)

/-- `strings.Split(contents, "\x00")`: split a byte list on the zero byte. -/
def splitOnZero : List Nat → List (List Nat)
  | [] => [[]]
  | b :: bs =>
    if b = 0 then [] :: splitOnZero bs
    else
      match splitOnZero bs with
      | [] => [[b]]
      | p :: ps => (b :: p) :: ps

/-- `Repository.CatFile`: validate the hash length, open and decompress the
object, and return the slice between the first and second null bytes.  The
second component is the list of filesystem paths the call opened. -/
def CatFile (root : List Nat) (store : Store) (hash : List Nat) :
    Except GitError (List Nat) × List (List Nat) :=
  if hash.length = 40 then
    let p := objectPath root hash
    match storeGet store p with
    | none => (.error .objectMissing, [p])
    | some comp =>
      match (splitOnZero (zlibDecode comp)).get? 1 with
      | none => (.error .splitPanic, [p])
      | some s => (.ok s, [p])
  else (.error (.invalidHash hash.length), [])

/-- The framed blob bytes `blob <len>\0<content>` built by `hashBlob`. -/
def blobFrame (content : List Nat) : List Nat :=
  str "blob " ++ decBytes content.length ++ 0 :: content

/-- `Repository.hashBlob`: frame the file content and return the hex hash and
the framed bytes. -/
def hashBlob (content : List Nat) : List Nat × List Nat :=
  (hexOfBytes (sha1bytes (blobFrame content)), blobFrame content)

/-- `Repository.WriteBlob`: hash the file, then persist the compressed framed
blob at the object path of its hash (the file content stands for the file
named by the Go call's `fs`/`filename` pair). -/
def WriteBlob (root : List Nat) (store : Store) (content : List Nat) :
    List Nat × Store :=
  let hb := hashBlob content
  (hb.1, storePut store (objectPath root hb.1) (zlibEncode hb.2))

/-- `bufio.ReadString(d)`: bytes strictly before the first occurrence of `d`,
paired with the bytes after it; `none` exactly when the delimiter does not
occur before the end of the stream (the Go call then returns a non-nil error). -/
def readThrough (d : Nat) : List Nat → Option (List Nat × List Nat)
  | [] => none
  | b :: bs =>
    if b = d then some ([], bs)
    else
      match readThrough d bs with
      | none => none
      | some (pre, rest) => some (b :: pre, rest)

/-- The entry loop of `Repository.ReadTree`: peek one byte (end of payload on
failure), read the mode through the space, read the name through the null,
then a 20-byte read that consumes `min(20, remaining)` bytes and fails only
when no byte remains.  The fuel is a bound on the iteration count and is
instantiated with the payload length. -/
def parseEntriesF : Nat → List Nat → Except GitError (List (List Nat))
  | 0, bs => if bs = [] then .ok [] else .error .readMode
  | f + 1, bs =>
    if bs = [] then .ok []
    else
      match readThrough 32 bs with
      | none => .error .readMode
      | some (_, bs1) =>
        match readThrough 0 bs1 with
        | none => .error .readName
        | some (name, bs2) =>
          if bs2 = [] then .error .readHash
          else (parseEntriesF f (List.drop 20 bs2)).map (fun ns => name :: ns)

/-- Entry names collected from a tree payload, in encounter order. -/
def parseEntries (bs : List Nat) : Except GitError (List (List Nat)) :=
  parseEntriesF bs.length bs

/-- `strings.Join(sort.StringSlice(names), "\n") + "\n"`.  Note that
`sort.StringSlice` is only a type conversion: the names are joined in the
order they were collected, nothing is sorted. -/
def joinNames (names : List (List Nat)) : List Nat :=
  List.intercalate [10] names ++ [10]

/-- The parsing part of `Repository.ReadTree` over the decompressed framed
bytes: type tag through the first space (must be `tree`), length field
through the first null (its digits are never used), then the entry loop. -/
def parseTree (framed : List Nat) : Except GitError (List Nat) :=
  match readThrough 32 framed with
  | none => .error .readType
  | some (typ, rest) =>
    if typ = str "tree" then
      match readThrough 0 rest with
      | none => .error .readHeader
      | some (_, payload) => (parseEntries payload).map joinNames
    else .error (.typeMismatch typ)

/-- `Repository.ReadTree`: validate the hash length, open and decompress the
object, parse the payload.  The second component is the list of filesystem
paths the call opened. -/
def ReadTree (root : List Nat) (store : Store) (hash : List Nat) :
    Except GitError (List Nat) × List (List Nat) :=
  if hash.length = 40 then
    let p := objectPath root hash
    match storeGet store p with
    | none => (.error .openFailed, [p])
    | some comp => (parseTree (zlibDecode comp), [p])
  else (.error (.invalidHash hash.length), [])

/-- A directory entry as `os.ReadDir` yields it: a regular file with its
content, or a subdirectory with its own entries (listed in `ReadDir` order). -/
inductive FsEntry where
  | file (name : List Nat) (content : List Nat)
  | dir (name : List Nat) (children : List FsEntry)
  deriving Repr

mutual

/-- `Repository.treeTable`: the concatenated entry records of a directory,
in `os.ReadDir` order. -/
def treeTable : List FsEntry → List Nat
  | [] => []
  | e :: rest => entryBytes e ++ treeTable rest

/-- One iteration of the `treeTable` loop.  A file yields `100644 <name>\0`
followed by the 40 hex characters of its blob hash (`%s` of the hex string);
a subdirectory named `.git` is skipped; any other subdirectory yields
`40000 <name>\0` followed by the 40 hex characters (`%x`) of the SHA-1 of the
raw recursive table string. -/
def entryBytes : FsEntry → List Nat
  | FsEntry.file n c =>
    str "100644 " ++ n ++ 0 :: hexOfBytes (sha1bytes (blobFrame c))
  | FsEntry.dir n cs =>
    if n = str ".git" then [] else
      str "40000 " ++ n ++ 0 :: hexOfBytes (sha1bytes (treeTable cs))

end

/-- The framed tree bytes `tree <len>\0<table>` built by `WriteTree`. -/
def treeFrame (es : List FsEntry) : List Nat :=
  str "tree " ++ decBytes (treeTable es).length ++ 0 :: treeTable es

/-- `Repository.WriteTree`: build the table, frame it, hash the framed bytes,
and persist the compressed framed tree at the object path of that hash.  This
is the only write the call performs. -/
def WriteTree (root : List Nat) (store : Store) (es : List FsEntry) :
    List Nat × Store :=
  let h := hexOfBytes (sha1bytes (treeFrame es))
  (h, storePut store (objectPath root h) (zlibEncode (treeFrame es)))

/-- Modelled from the spec (§3, §4.4): a sub-tree's Object Hash is the
40-hex-character content hash of the sub-tree's framed bytes; the spec then
claims the stored subdirectory reference is the cryptographic digest of the
bytes of that hex hash string. -/
def specSubTreeObjectHash (cs : List FsEntry) : List Nat :=
  hexOfBytes (sha1bytes (treeFrame cs))

/-! Basic lemmas about the reader primitives. -/

theorem readThrough_some {d : Nat} : ∀ {bs pre rest : List Nat},
    readThrough d bs = some (pre, rest) → bs = pre ++ d :: rest ∧ d ∉ pre := by
  intro bs
  induction bs with
  | nil => intro pre rest h; simp [readThrough] at h
  | cons b bs' ih =>
    intro pre rest h
    by_cases hb : b = d
    · simp [readThrough, hb] at h
      obtain ⟨h1, h2⟩ := h
      subst h1; subst h2; subst hb
      simp
    · simp [readThrough, hb] at h
      cases h' : readThrough d bs' with
      | none => rw [h'] at h; simp at h
      | some pr =>
        obtain ⟨pre', rest'⟩ := pr
        rw [h'] at h
        simp at h
        obtain ⟨h1, h2⟩ := h
        obtain ⟨hsp, hnm⟩ := ih h'
        subst h1; subst h2
        constructor
        · simp [hsp]
        · intro hmem
          simp at hmem
          rcases hmem with h | h
          · exact hb h.symm
          · exact hnm h

theorem readThrough_split (d : Nat) : ∀ (pre post : List Nat), d ∉ pre →
    readThrough d (pre ++ d :: post) = some (pre, post) := by
  intro pre
  induction pre with
  | nil => intro post _; simp [readThrough]
  | cons a pre' ih =>
    intro post hd
    simp at hd
    have ha : ¬a = d := fun h => hd.1 h.symm
    simp [readThrough, ha, ih post hd.2]

theorem parseEntriesF_congr : ∀ f : Nat, ∀ g : Nat, ∀ bs : List Nat,
    bs.length ≤ f → bs.length ≤ g → parseEntriesF f bs = parseEntriesF g bs := by
  intro f
  induction f using Nat.strong_induction_on with
  | _ f ih =>
    intro g bs hf hg
    cases bs with
    | nil => cases f <;> cases g <;> simp [parseEntriesF]
    | cons b bs' =>
      cases f with
      | zero => simp at hf
      | succ f' =>
        cases g with
        | zero => simp at hg
        | succ g' =>
          cases h32 : readThrough 32 (b :: bs') with
          | none => simp [parseEntriesF, h32]
          | some pr =>
            obtain ⟨pre, bs1⟩ := pr
            obtain ⟨hs1, _⟩ := readThrough_some h32
            cases h0 : readThrough 0 bs1 with
            | none => simp [parseEntriesF, h32, h0]
            | some pr2 =>
              obtain ⟨name, bs2⟩ := pr2
              obtain ⟨hs2, _⟩ := readThrough_some h0
              by_cases hbs2 : bs2 = []
              · simp [parseEntriesF, h32, h0, hbs2]
              · have l1 : bs1.length + 1 ≤ bs'.length + 1 := by
                  have := congrArg List.length hs1
                  simp at this
                  omega
                have l2 : bs2.length + 1 ≤ bs1.length := by
                  have := congrArg List.length hs2
                  simp at this
                  omega
                have l3 : (List.drop 20 bs2).length ≤ bs2.length := by simp
                have hf' : (b :: bs').length ≤ f' + 1 := hf
                have hg' : (b :: bs').length ≤ g' + 1 := hg
                simp at hf' hg'
                have hrec := ih f' (by omega) g' (List.drop 20 bs2)
                  (by omega) (by omega)
                simp [parseEntriesF, h32, h0, hbs2, hrec]

theorem parseEntriesF_norm (f : Nat) (bs : List Nat) (h : bs.length ≤ f) :
    parseEntriesF f bs = parseEntries bs :=
  parseEntriesF_congr f bs.length bs h le_rfl

/-- One iteration of the entry loop on a payload that starts with a
well-framed mode and name: the mode is consumed through its space, the name
through its null, and the hash read errors exactly when nothing remains,
otherwise consuming at most 20 bytes. -/
theorem parseEntries_step (mode name rest : List Nat)
    (hm : (32 : Nat) ∉ mode) (hn : (0 : Nat) ∉ name) :
    parseEntries (mode ++ (32 :: (name ++ (0 :: rest)))) =
      (if rest = [] then .error .readHash
       else (parseEntries (List.drop 20 rest)).map (fun ns => name :: ns)) := by
  have hl : (mode ++ (32 :: (name ++ (0 :: rest)))).length =
      (mode.length + name.length + rest.length + 1) + 1 := by
    simp
    omega
  rw [parseEntries, hl]
  have hne : mode ++ (32 :: (name ++ (0 :: rest))) ≠ [] := by simp
  rw [parseEntriesF]
  simp only [if_neg hne, readThrough_split 32 mode (name ++ (0 :: rest)) hm,
    readThrough_split 0 name rest hn]
  by_cases hrest : rest = []
  · simp [hrest]
  · have : (List.drop 20 rest).length ≤ mode.length + name.length + rest.length + 1 := by
      have : (List.drop 20 rest).length ≤ rest.length := by simp
      omega
    simp [hrest, parseEntriesF_norm _ _ this]

/-- The framed-header part of the tree parse: the type tag is checked and the
length field is consumed through its null and otherwise ignored, so any
null-free length field yields the same parse of the remaining payload. -/
theorem parseTree_header (L bs : List Nat) (hL : (0 : Nat) ∉ L) :
    parseTree (str "tree " ++ (L ++ (0 :: bs))) = (parseEntries bs).map joinNames := by
  show parseTree (str "tree" ++ (32 :: (L ++ (0 :: bs)))) = _
  rw [parseTree]
  rw [readThrough_split 32 (str "tree") (L ++ (0 :: bs)) (by decide)]
  simp [readThrough_split 0 L bs hL]

/-! Lemmas about `splitOnZero` and the store. -/

theorem splitOnZero_ne_nil : ∀ bs : List Nat, splitOnZero bs ≠ [] := by
  intro bs
  cases bs with
  | nil => simp [splitOnZero]
  | cons b bs' =>
    by_cases hb : b = 0
    · simp [splitOnZero, hb]
    · simp only [splitOnZero, if_neg hb]
      cases h : splitOnZero bs' <;> simp

theorem splitOnZero_append : ∀ (h p : List Nat), (0 : Nat) ∉ h →
    splitOnZero (h ++ (0 :: p)) = h :: splitOnZero p := by
  intro h
  induction h with
  | nil => intro p _; simp [splitOnZero]
  | cons a h' ih =>
    intro p hh
    simp at hh
    have ha : ¬a = 0 := fun he => hh.1 he.symm
    simp only [List.cons_append, splitOnZero, if_neg ha, List.append_eq, ih p hh.2]

theorem splitOnZero_head : ∀ p : List Nat,
    (splitOnZero p).head? = some (p.takeWhile (fun b => b != 0)) := by
  intro p
  induction p with
  | nil => simp [splitOnZero]
  | cons b p' ih =>
    by_cases hb : b = 0
    · simp [splitOnZero, hb, List.takeWhile]
    · simp only [splitOnZero, if_neg hb]
      cases h : splitOnZero p' with
      | nil => exact absurd h (splitOnZero_ne_nil p')
      | cons q qs =>
        rw [h] at ih
        simp at ih
        have hbne : (b != 0) = true := by simp [hb]
        simp [List.takeWhile, hbne, ih]

theorem splitOnZero_get1 (h p : List Nat) (hh : (0 : Nat) ∉ h) :
    (splitOnZero (h ++ (0 :: p)))[1]? = some (p.takeWhile (fun b => b != 0)) := by
  rw [splitOnZero_append h p hh]
  have hd := splitOnZero_head p
  cases hsp : splitOnZero p with
  | nil => exact absurd hsp (splitOnZero_ne_nil p)
  | cons q qs =>
    rw [hsp] at hd
    simp at hd
    simp [hd]

theorem storeGet_put (s : Store) (k v : List Nat) :
    storeGet (storePut s k v) k = some v := by
  simp [storeGet, storePut]

/-! The claims. -/

/-- Claim C1 (code bug evaluation): on a directory containing the single
regular file `a` with contents `hi`, `ReadTree` applied to the hash and store
produced by `WriteTree` does not return the child-name set — it fails with
the mode-read error, because `treeTable` stores each entry's hash field as 40
hex characters while the parser skips only 20 bytes, so the parser resumes
inside the leftover hex and finds no space before end of payload. -/
theorem c1_roundTrip_eval :
    (ReadTree (str ".") (WriteTree (str ".") [] [FsEntry.file (str "a") (str "hi")]).2
      (WriteTree (str ".") [] [FsEntry.file (str "a") (str "hi")]).1).1 =
      .error .readMode := by
  rfl

/-- Claim C2 (code bug evaluation): for a well-formed stored tree object whose
entries are named `b` then `a` (raw 20-byte hash fields), `ReadTree` returns
`b\na\n` — the names in stored order, newline-joined with a trailing newline —
not the lexicographically sorted `a\nb\n` the spec states, because
`sort.StringSlice(names)` is only a type conversion and nothing is sorted. -/
theorem c2_unsorted_eval :
    (ReadTree (str ".")
      [(objectPath (str ".") (List.replicate 40 48),
        zlibEncode (str "tree 58" ++ (0 :: (str "100644 b" ++ (0 :: (List.replicate 20 65 ++
          (str "100644 a" ++ (0 :: List.replicate 20 65))))))))]
      (List.replicate 40 48)).1 = .ok (str "b\na\n") ∧
    str "b\na\n" ≠ str "a\nb\n" := by
  exact ⟨by rfl, by decide⟩

/-- Claim C3: for every hash whose byte length is not 40, both `CatFile` and
`ReadTree` fail with the invalid-hash error, and the returned access log is
empty — no filesystem path is opened, for any store whatsoever. -/
theorem c3_invalidHash (root : List Nat) (store : Store) (hash : List Nat)
    (h : hash.length ≠ 40) :
    CatFile root store hash = (.error (.invalidHash hash.length), []) ∧
    ReadTree root store hash = (.error (.invalidHash hash.length), []) := by
  constructor <;> simp [CatFile, ReadTree, h]

/-- Witness for C3 at the spec's example `"123"` (length 3). -/
theorem c3_invalidHash_witness :
    (str "123").length ≠ 40 ∧
    CatFile (str ".") [] (str "123") = (.error (.invalidHash 3), []) ∧
    ReadTree (str ".") [] (str "123") = (.error (.invalidHash 3), []) :=
  ⟨by decide, c3_invalidHash (str ".") [] (str "123") (by decide)⟩

/-- Claim C4 (code bug evaluation): the tree entry built for the file `a`
with contents `hi` has the form `100644 a\0` followed by a hash field, but
that field is the 40-character hex encoding of the digest of the blob frame,
not the raw 20-byte digest the spec (and the program's own parser, which
skips exactly 20 bytes) requires. -/
theorem c4_hexField_eval :
    treeTable [FsEntry.file (str "a") (str "hi")] =
      str "100644 a" ++ (0 :: hexOfBytes (sha1bytes (blobFrame (str "hi")))) ∧
    (hexOfBytes (sha1bytes (blobFrame (str "hi")))).length = 40 ∧
    (sha1bytes (blobFrame (str "hi"))).length = 20 ∧
    hexOfBytes (sha1bytes (blobFrame (str "hi"))) ≠ sha1bytes (blobFrame (str "hi")) := by
  exact ⟨by rfl, by rfl, by rfl, by decide⟩

/-- Claim C5 counterexample: for a subdirectory `d` with no children, the
stored hash field is the hex digest of the empty recursive table, and it is
neither the digest of the hex-hash-string bytes of the sub-tree's Object Hash
nor the hex rendering of that digest, refuting the claim as stated. -/
theorem c5_counterexample :
    (treeTable [FsEntry.dir (str "d") []]).drop 8 =
      hexOfBytes (sha1bytes (treeTable ([] : List FsEntry))) ∧
    (treeTable [FsEntry.dir (str "d") []]).drop 8 ≠
      sha1bytes (specSubTreeObjectHash []) ∧
    (treeTable [FsEntry.dir (str "d") []]).drop 8 ≠
      hexOfBytes (sha1bytes (specSubTreeObjectHash [])) := by
  exact ⟨by rfl, by decide, by decide⟩

/-- Claim C5 (amended): every subdirectory entry emitted during tree building
carries, as its stored hash field, the 40-character hex encoding of the
digest computed over the sub-directory's raw recursive table bytes (the
unframed concatenation of its entries), not a digest of any hex hash string
of the sub-tree's Object Hash. -/
theorem c5_subdirField (es : List FsEntry) (n : List Nat) (cs : List FsEntry)
    (hmem : FsEntry.dir n cs ∈ es) (hn : n ≠ str ".git") :
    ∃ l r, treeTable es =
      l ++ ((str "40000 " ++ (n ++ (0 :: hexOfBytes (sha1bytes (treeTable cs))))) ++ r) := by
  induction es with
  | nil => simp at hmem
  | cons e rest ih =>
    rcases List.mem_cons.mp hmem with he | he
    · refine ⟨[], treeTable rest, ?_⟩
      rw [← he]
      simp [treeTable, entryBytes, hn]
    · obtain ⟨l, r, hr⟩ := ih he
      exact ⟨entryBytes e ++ l, r, by simp [treeTable, hr]⟩

/-- Witness for C5 (amended) at a directory containing the empty
subdirectory `d`. -/
theorem c5_subdirField_witness :
    str "d" ≠ str ".git" ∧
    ∃ l r, treeTable [FsEntry.dir (str "d") []] =
      l ++ ((str "40000 " ++ (str "d" ++
        (0 :: hexOfBytes (sha1bytes (treeTable ([] : List FsEntry)))))) ++ r) :=
  ⟨by decide, c5_subdirField [FsEntry.dir (str "d") []] (str "d") []
    (List.mem_singleton.mpr rfl) (by decide)⟩

/-- Claim C6 counterexample: after `WriteTree` on a directory with the single
file `a` (contents `hi`), starting from the empty store, the store holds
exactly one object, and the object path of the referenced blob's hash is
absent — the referenced blob was not persisted. -/
theorem c6_counterexample :
    ((WriteTree (str ".") [] [FsEntry.file (str "a") (str "hi")]).2).length = 1 ∧
    storeGet (WriteTree (str ".") [] [FsEntry.file (str "a") (str "hi")]).2
      (objectPath (str ".") (hashBlob (str "hi")).1) = none := by
  exact ⟨by rfl, by decide⟩

/-- Claim C6 (amended): the only persistence a `WriteTree` call performs is
writing the top-level tree object itself at the object path of its hash;
referenced blobs and sub-trees are hashed but never written to the store. -/
theorem c6_onlyTopLevelWrite (root : List Nat) (store : Store) (es : List FsEntry) :
    (WriteTree root store es).2 =
      storePut store (objectPath root (WriteTree root store es).1)
        (zlibEncode (treeFrame es)) := by
  rfl

/-- Claim C7 counterexample: a stored tree object whose single entry is
well-framed through its name but leaves only 5 bytes (fewer than 20) for the
hash field parses without error — `ReadTree` returns `a\n` — refuting the
claim that fewer than 20 remaining bytes for a hash field is a parse error. -/
theorem c7_counterexample :
    (ReadTree (str ".")
      [(objectPath (str ".") (List.replicate 40 48),
        zlibEncode (str "tree 29" ++ (0 :: (str "100644 a" ++
          (0 :: [65, 65, 65, 65, 65])))))]
      (List.replicate 40 48)).1 = .ok (str "a\n") := by
  rfl

/-- Claim C7 (amended): end-of-payload detection ignores the declared length
field, so any null-free length field yields the same parse of the payload;
one entry step consumes the mode through its space and the name through its
null and errors on the hash field exactly when zero bytes remain; and a hash
field truncated to between 1 and 19 bytes is consumed without a parse
error. -/
theorem c7_lenientParse (L bs mode name rest : List Nat)
    (hL : (0 : Nat) ∉ L) (hm : (32 : Nat) ∉ mode) (hn : (0 : Nat) ∉ name) :
    parseTree (str "tree " ++ (L ++ (0 :: bs))) = (parseEntries bs).map joinNames ∧
    parseEntries (mode ++ (32 :: (name ++ (0 :: rest)))) =
      (if rest = [] then .error .readHash
       else (parseEntries (List.drop 20 rest)).map (fun ns => name :: ns)) ∧
    (1 ≤ rest.length → rest.length ≤ 19 →
      parseEntries (mode ++ (32 :: (name ++ (0 :: rest)))) = .ok [name]) := by
  refine ⟨parseTree_header L bs hL, parseEntries_step mode name rest hm hn, ?_⟩
  intro h1 h19
  rw [parseEntries_step mode name rest hm hn]
  have hne : rest ≠ [] := by
    intro h
    rw [h] at h1
    simp at h1
  have hdrop : List.drop 20 rest = [] := by
    rw [List.drop_eq_nil_iff]
    omega
  simp [hne, hdrop, parseEntries, parseEntriesF, Except.map]

/-- Witness for C7 (amended) with mode `100644`, name `a` and a 3-byte
truncated hash field. -/
theorem c7_lenientParse_witness :
    (0 : Nat) ∉ str "999" ∧ (32 : Nat) ∉ str "100644" ∧ (0 : Nat) ∉ str "a" ∧
    parseEntries (str "100644" ++ (32 :: (str "a" ++ (0 :: [65, 65, 65])))) =
      .ok [str "a"] :=
  ⟨by decide, by decide, by decide,
    (c7_lenientParse (str "999") [] (str "100644") (str "a") [65, 65, 65]
      (by decide) (by decide) (by decide)).2.2 (by decide) (by decide)⟩

/-- Claim C8: a handle freshly created by `NewRepository` initializes
successfully once, and a second `Init` on the resulting handle returns the
already-initialized error while leaving both the handle and the filesystem
state exactly as the first call left them. -/
theorem c8_initTwice (root : List Nat) (fs : FsState) :
    ((NewRepository root).Init fs).2.2 = none ∧
    (((NewRepository root).Init fs).1.Init ((NewRepository root).Init fs).2.1) =
      (((NewRepository root).Init fs).1, ((NewRepository root).Init fs).2.1,
        some .alreadyInitialized) := by
  exact ⟨rfl, rfl⟩

/-- Claim C9 counterexample: the content hash of the literal frame
`blob 12\0test content` is not the 39-character string the claim gives. -/
theorem c9_counterexample :
    hexOfBytes (sha1bytes (str "blob 12" ++ (0 :: str "test content"))) ≠
      str "d670460b4b4aece5915caf5c68d12f560a9fe30" := by
  decide

/-- Claim C9 (amended): writing the 12-byte content `test content` as a blob
returns the hash `08cf6101416f0ce0dda3c80e627f333854c4085c` — the hex digest
of the literal frame `blob 12\0test content` — and reading that hash back
from the resulting store returns `test content` unchanged. -/
theorem c9_blobRoundTrip :
    (WriteBlob (str ".") [] (str "test content")).1 =
      str "08cf6101416f0ce0dda3c80e627f333854c4085c" ∧
    (CatFile (str ".") (WriteBlob (str ".") [] (str "test content")).2
      (WriteBlob (str ".") [] (str "test content")).1).1 =
      .ok (str "test content") := by
  exact ⟨by rfl, by rfl⟩

/-- Claim C10: for every stored object whose decompressed framed bytes are a
null-free header, a null byte, then a payload, `CatFile` returns exactly the
bytes strictly between the first and second nulls of the framed object: when
the payload contains a null this is a strict prefix of the payload, and when
the payload is null-free it is the full payload. -/
theorem c10_catFileSlice (root : List Nat) (store : Store)
    (hash header payload : List Nat)
    (h40 : hash.length = 40) (hh : (0 : Nat) ∉ header) :
    (CatFile root (storePut store (objectPath root hash)
        (zlibEncode (header ++ (0 :: payload)))) hash).1 =
      .ok (payload.takeWhile (fun b => b != 0)) ∧
    ((0 : Nat) ∈ payload →
      payload.takeWhile (fun b => b != 0) ≠ payload ∧
      ∃ t, payload.takeWhile (fun b => b != 0) ++ t = payload ∧ t ≠ []) ∧
    ((0 : Nat) ∉ payload → payload.takeWhile (fun b => b != 0) = payload) := by
  have hne : payload.takeWhile (fun b => b != 0) ≠ payload ∨
      (0 : Nat) ∉ payload := by
    by_cases h0 : (0 : Nat) ∈ payload
    · left
      intro he
      have h0' : (0 : Nat) ∈ payload.takeWhile (fun b => b != 0) := by
        rw [he]; exact h0
      have := List.mem_takeWhile_imp h0'
      simp at this
    · right; exact h0
  refine ⟨?_, ?_, ?_⟩
  · simp [CatFile, h40, storeGet_put, zlibDecode, zlibEncode,
      splitOnZero_get1 header payload hh]
  · intro h0
    have hne' : payload.takeWhile (fun b => b != 0) ≠ payload := by
      rcases hne with h | h
      · exact h
      · exact absurd h0 h
    refine ⟨hne', payload.dropWhile (fun b => b != 0),
      List.takeWhile_append_dropWhile (fun b => b != 0) payload, ?_⟩
    intro hd
    apply hne'
    have := List.takeWhile_append_dropWhile (fun b => b != 0) payload
    rw [hd, List.append_nil] at this
    exact this
  · intro h0
    rw [List.takeWhile_eq_self_iff]
    intro x hx
    have hx0 : x ≠ 0 := fun he => h0 (he ▸ hx)
    simp [hx0]

/-- Witness for C10 with header `blob 4` and payload `h\0i` (contains a
null), at a 40-character hash. -/
theorem c10_catFileSlice_witness :
    (List.replicate 40 97 : List Nat).length = 40 ∧ (0 : Nat) ∉ str "blob 4" ∧
    (CatFile (str ".") (storePut [] (objectPath (str ".") (List.replicate 40 97))
        (zlibEncode (str "blob 4" ++ (0 :: [104, 0, 105])))) (List.replicate 40 97)).1 =
      .ok [104] :=
  ⟨by decide, by decide,
    ((c10_catFileSlice (str ".") [] (List.replicate 40 97) (str "blob 4")
      [104, 0, 105] (by decide) (by decide)).1).trans (by rfl)⟩
